import Mathlib

/-!
Shallow embedding of the concurrent-chat service core (presence tracking,
typing indicators, message posting, chat creation, user registration and the
retention sweep), translated from the repository's JavaScript sources, together
with theorems settling the specification's claims about them.

Ids (Mongo ObjectIds / hex uuids) are modelled as naturals; timestamps as
naturals (milliseconds); the durable store as explicit lists threaded through
the handlers.  Each `async` handler runs atomically unless a claim is about the
interleaving of its suspension points, in which case the suspension points are
made explicit as separate steps.
-/

/-- A stored/populated user document: `{_id, name, tag}` (src/server/models/User.js). -/
structure MUser where
  id : Nat
  name : String
  tag : Nat
deriving DecidableEq, Repr

/-- The client-facing projection of a user, `User.toClientObject()` /
the "plucked" user of the in-memory api: `{id, name, tag}`. -/
structure CUser where
  id : Nat
  name : String
  tag : Nat
deriving DecidableEq, Repr

/-- `user.toClientObject()` (src/server/models/User.js), also the plucked user
object of the in-memory api (src/unnamed/part_001). -/
def pluckUser (u : MUser) : CUser :=
  { id := u.id, name := u.name, tag := u.tag }

/-! ## Client-side typing tracker (src/public/js/worker.js)

The worker keeps `typingUsersWithTimeout`, a list of `{user, timeout}` records.
We model a scheduled timeout by the fresh id `setTimeout` returned together
with its delay in milliseconds; `clearTimeout` moves that id to a cancelled
list.  Every `postMessage({event: "userTyping", typingUsers})` call is recorded
in `publishedTypingLists` in order. -/

/-- One entry of `typingUsersWithTimeout`: the typing user together with the
timer that `setTimeout(cb, 10e3)` scheduled for it. -/
structure TypingUserWithTimeout where
  user : CUser
  timerId : Nat
  delayMs : Nat
deriving DecidableEq, Repr

/-- The worker state relevant to the typing indicator. -/
structure WorkerTypingState where
  typingUsersWithTimeout : List TypingUserWithTimeout
  nextTimerId : Nat
  cancelledTimers : List Nat
  publishedTypingLists : List (List CUser)
deriving DecidableEq, Repr

/-- ThreadWorker.getTypingUsers: projects the entries to their users. -/
def getTypingUsers (l : List TypingUserWithTimeout) : List CUser :=
  l.map (fun el => el.user)

/-- The initial worker state (`this.typingUsersWithTimeout = []`). -/
def typingStart0 : WorkerTypingState :=
  { typingUsersWithTimeout := []
    nextTimerId := 0
    cancelledTimers := []
    publishedTypingLists := [] }

/-- Handler of the `userStartedTyping` socket event (src/public/js/worker.js,
lines 465-506): ignore the local user; ignore a user already in the list
(the running timer is not reset); otherwise append an entry with a fresh
10000 ms timer and publish the updated typing-user list. -/
def onUserStartedTyping (localUserId : Nat) (user : CUser)
    (s : WorkerTypingState) : WorkerTypingState :=
  if user.id == localUserId then s
  else if s.typingUsersWithTimeout.any (fun el => el.user.id == user.id) then s
  else
    let entry : TypingUserWithTimeout :=
      { user := user, timerId := s.nextTimerId, delayMs := 10000 }
    let l := s.typingUsersWithTimeout ++ [entry]
    { typingUsersWithTimeout := l
      nextTimerId := s.nextTimerId + 1
      cancelledTimers := s.cancelledTimers
      publishedTypingLists := s.publishedTypingLists ++ [getTypingUsers l] }

/-- Body of the timeout scheduled by `onUserStartedTyping`: if the user is
still in the list, remove the (first) entry and publish the updated list;
otherwise do nothing. -/
def typingTimeoutFire (userId : Nat) (s : WorkerTypingState) : WorkerTypingState :=
  if s.typingUsersWithTimeout.any (fun el => el.user.id == userId) then
    let l := s.typingUsersWithTimeout.eraseP (fun el => el.user.id == userId)
    { s with
      typingUsersWithTimeout := l
      publishedTypingLists := s.publishedTypingLists ++ [getTypingUsers l] }
  else s

/-- Handler of the `userStoppedTyping` socket event (src/public/js/worker.js,
lines 514-534): no-op when the user is absent; otherwise remove the first
matching entry, clear its timeout, and publish the updated list. -/
def onUserStoppedTyping (userId : Nat) (s : WorkerTypingState) : WorkerTypingState :=
  match s.typingUsersWithTimeout.find? (fun el => el.user.id == userId) with
  | none => s
  | some removed =>
    let l := s.typingUsersWithTimeout.eraseP (fun el => el.user.id == userId)
    { typingUsersWithTimeout := l
      nextTimerId := s.nextTimerId
      cancelledTimers := s.cancelledTimers ++ [removed.timerId]
      publishedTypingLists := s.publishedTypingLists ++ [getTypingUsers l] }

/-- The socket/timer events that can reach the typing tracker. A
`timeoutFired` event may occur at any point; a timeout that was cancelled or
whose entry is gone finds no matching entry and is a no-op, so allowing
arbitrary fires only adds behaviours. -/
inductive TypingEvent where
  | started (user : CUser)
  | stopped (userId : Nat)
  | timeoutFired (userId : Nat)
deriving DecidableEq, Repr

/-- Dispatch one typing-related event, as the worker's socket handlers do. -/
def typingStep (localUserId : Nat) (s : WorkerTypingState) (e : TypingEvent) :
    WorkerTypingState :=
  match e with
  | .started u => onUserStartedTyping localUserId u s
  | .stopped uid => onUserStoppedTyping uid s
  | .timeoutFired uid => typingTimeoutFire uid s

/-- Run a sequence of typing events against a worker state. -/
def runTypingEvents (localUserId : Nat) (events : List TypingEvent)
    (s : WorkerTypingState) : WorkerTypingState :=
  events.foldl (typingStep localUserId) s

/-- The ids in the current typing-user list (what listTyping exposes). -/
def typingIds (s : WorkerTypingState) : List Nat :=
  (getTypingUsers s.typingUsersWithTimeout).map (fun u => u.id)

/-! ## Persistent (mongoose) socket presence handlers (src/server/Socket.js,
first class, lines 51-119; the same logic appears as the socketOnConnect /
socketOnDisconnect jobs of src/server/workers/threads/index.js).

The chat document's `users` array holds one (populated) user entry per live
connection.  Emitted `userConnected` / `userDisconnected` events are counted. -/

/-- State of one chat as the socket handlers see it: the durable `chat.users`
array plus counters of the presence events emitted to the chat's room. -/
structure SocketChatState where
  users : List MUser
  connectedEvents : Nat
  disconnectedEvents : Nat
deriving DecidableEq, Repr

/-- Socket.getMatchedUsers: the entries of `users` whose `_id` equals the
filter user's `_id`. -/
def getMatchedUsers (users : List MUser) (filterUser : MUser) : List MUser :=
  users.filter (fun u => u.id == filterUser.id)

/-- Socket.onConnect (mongoose variant): push the user onto `chat.users`, save,
and emit `userConnected` precisely when the user now appears exactly once. -/
def socketOnConnect (user : MUser) (s : SocketChatState) : SocketChatState :=
  let users := s.users ++ [user]
  if (getMatchedUsers users user).length == 1 then
    { users := users
      connectedEvents := s.connectedEvents + 1
      disconnectedEvents := s.disconnectedEvents }
  else
    { users := users
      connectedEvents := s.connectedEvents
      disconnectedEvents := s.disconnectedEvents }

/-- Socket.onDisconnect (mongoose variant): find the first entry with the
user's id (return unchanged if there is none), remove it, save, and emit
`userDisconnected` precisely when no entry with that id remains. -/
def socketOnDisconnect (user : MUser) (s : SocketChatState) : SocketChatState :=
  if s.users.any (fun u => u.id == user.id) then
    let users := s.users.eraseP (fun u => u.id == user.id)
    if (getMatchedUsers users user).length == 0 then
      { users := users
        connectedEvents := s.connectedEvents
        disconnectedEvents := s.disconnectedEvents + 1 }
    else
      { users := users
        connectedEvents := s.connectedEvents
        disconnectedEvents := s.disconnectedEvents }
  else s

/-- A connect or disconnect of one transport connection for a fixed
(chat, user) pair. -/
inductive PresenceOp where
  | connect
  | disconnect
deriving DecidableEq, Repr

/-- Dispatch one presence operation for the fixed user through the mongoose
socket handlers. -/
def presenceStep (user : MUser) (s : SocketChatState) : PresenceOp → SocketChatState
  | .connect => socketOnConnect user s
  | .disconnect => socketOnDisconnect user s

/-- Run a sequence of connects/disconnects for one user through the mongoose
socket handlers. -/
def runPresenceOps (user : MUser) (ops : List PresenceOp) (s : SocketChatState) :
    SocketChatState :=
  ops.foldl (presenceStep user) s

/-- Number of entries for a given user id in a chat's users array. -/
def matchedCount (uid : Nat) (users : List MUser) : Nat :=
  users.countP (fun u => u.id == uid)

/-- Iterate the mongoose connect handler n times for the same user
(n simultaneous connections being opened). -/
def connectTimes : Nat → MUser → SocketChatState → SocketChatState
  | 0, _, s => s
  | n + 1, u, s => connectTimes n u (socketOnConnect u s)

/-- Abstract view of one (chat, user) pair: the number of entries the chat's
users array holds for the pair and the presence events emitted so far. -/
structure PresenceView where
  count : Nat
  connectedEvents : Nat
  disconnectedEvents : Nat
deriving DecidableEq, Repr

/-- The pair's view of a socket chat state. -/
def presenceView (uid : Nat) (s : SocketChatState) : PresenceView :=
  { count := matchedCount uid s.users
    connectedEvents := s.connectedEvents
    disconnectedEvents := s.disconnectedEvents }

/-- Numeric shadow of the mongoose socket handlers for one pair: a connect
increments the count and emits exactly on 0 to 1; a disconnect of an unknown
connection is ignored, otherwise it decrements and emits exactly on 1 to 0. -/
def presenceViewStep : PresenceView → PresenceOp → PresenceView
  | v, .connect =>
    { count := v.count + 1
      connectedEvents := if v.count = 0 then v.connectedEvents + 1 else v.connectedEvents
      disconnectedEvents := v.disconnectedEvents }
  | v, .disconnect =>
    if v.count = 0 then v
    else
      { count := v.count - 1
        connectedEvents := v.connectedEvents
        disconnectedEvents :=
          if v.count = 1 then v.disconnectedEvents + 1 else v.disconnectedEvents }

/-- Run the numeric shadow over a sequence of presence operations. -/
def runPresenceView (ops : List PresenceOp) (v : PresenceView) : PresenceView :=
  ops.foldl presenceViewStep v

/-- Number of connect operations in a sequence. -/
def countConnects (ops : List PresenceOp) : Nat :=
  ops.countP (fun o => o == PresenceOp.connect)

/-- Number of disconnect operations in a sequence. -/
def countDisconnects (ops : List PresenceOp) : Nat :=
  ops.countP (fun o => o == PresenceOp.disconnect)

/-! ## In-memory socket handlers and api (src/unnamed/part_001; the same logic
is the second Socket class of src/server/Socket.js, lines 171-212). -/

/-- Character comparison, by code point (JS compares strings by code unit;
for the code points in play the two orders agree). -/
def charLt (a b : Char) : Bool :=
  a.toNat < b.toNat

/-- Lexicographic order on strings as character lists: the JS `<` on strings. -/
def charListLt : List Char → List Char → Bool
  | [], [] => false
  | [], _ :: _ => true
  | _ :: _, [] => false
  | a :: as, b :: bs => charLt a b || (a == b && charListLt as bs)

/-- The character list of `name.toLowerCase()`. -/
def lowerChars (s : String) : List Char :=
  s.data.map Char.toLower

/-- The comparator `sortByName` of the in-memory api compares lowercased
names, returning -1/0/1.  `Array.prototype.sort` is a stable sort by that
comparator; we model it by a stable sort whose `le a b` is "the comparator
does not order b strictly before a". -/
def sortByNameLe (a b : MUser) : Bool :=
  !(charListLt (lowerChars b.name) (lowerChars a.name))

/-- The relation the stable sort uses, as a Prop. -/
def sortByNameRel (a b : MUser) : Prop :=
  sortByNameLe a b = true

instance : DecidableRel sortByNameRel :=
  fun a b => inferInstanceAs (Decidable (sortByNameLe a b = true))

/-- `chat.users.sort(sortByName)`: stable sort by lowercased name. -/
def jsSortByName (l : List MUser) : List MUser :=
  List.insertionSort sortByNameRel l

/-- State of one in-memory chat: its `users` array plus counters of emitted
presence events. -/
structure MemChatState where
  users : List MUser
  connectedEvents : Nat
  disconnectedEvents : Nat
deriving DecidableEq, Repr

/-- connectSocket (in-memory variant): if the user is already in the chat only
its joinedAt is refreshed (not modelled); otherwise the user is pushed and the
array re-sorted.  `userConnected` is emitted unconditionally. -/
def memConnectSocket (user : MUser) (s : MemChatState) : MemChatState :=
  let users :=
    if s.users.any (fun u => u.id == user.id) then s.users
    else jsSortByName (s.users ++ [user])
  { users := users
    connectedEvents := s.connectedEvents + 1
    disconnectedEvents := s.disconnectedEvents }

/-- The disconnect callback of connectSocket (in-memory variant): remove the
first entry with the user's id if present, and emit `userDisconnected`
unconditionally. -/
def memDisconnectSocket (userId : Nat) (s : MemChatState) : MemChatState :=
  { users := s.users.eraseP (fun u => u.id == userId)
    connectedEvents := s.connectedEvents
    disconnectedEvents := s.disconnectedEvents + 1 }

/-- A socket event against one in-memory chat (arbitrary users). -/
inductive MemSocketEvent where
  | connect (user : MUser)
  | disconnect (userId : Nat)
deriving DecidableEq, Repr

/-- Dispatch one in-memory socket event. -/
def memSocketStep (s : MemChatState) : MemSocketEvent → MemChatState
  | .connect u => memConnectSocket u s
  | .disconnect uid => memDisconnectSocket uid s

/-- Run a sequence of in-memory socket events. -/
def runMemSocket (events : List MemSocketEvent) (s : MemChatState) : MemChatState :=
  events.foldl memSocketStep s

/-- An in-memory chat with no users yet and no events emitted. -/
def memChatStart : MemChatState :=
  { users := [], connectedEvents := 0, disconnectedEvents := 0 }

/-- Outcome of a request/response api call. -/
inductive ApiResult (α : Type) where
  | ok (value : α)
  | notFound
deriving DecidableEq, Repr

/-- One chat of the in-memory chats list, as getChatUsers sees it. -/
structure MemChat where
  id : Nat
  users : List MUser
deriving DecidableEq, Repr

/-- getChatUsers of the in-memory api (src/unnamed/part_001, lines 280-305):
find the chat by id (404 when absent) and answer with the chat's users,
plucked, in the order the users array holds them (no sorting here; sorting
happened inside connectSocket). -/
def getChatUsersApi (chats : List MemChat) (chatId : Nat) : ApiResult (List CUser) :=
  match chats.find? (fun c => c.id == chatId) with
  | none => .notFound
  | some chat => .ok (chat.users.map pluckUser)

/-- The mongoose getChatUsers (src/unnamed/part_002, lines 66-92) populates
`users` with the store sorting them by `{name: "asc", tag: "asc"}`: binary
(case-sensitive) order on names, tag as tiebreaker.  The store sort is
modelled as a stable sort by exactly that key; this is its relation. -/
def storeSortRel (a b : MUser) : Prop :=
  (charListLt a.name.data b.name.data || (a.name == b.name && a.tag ≤ b.tag)) = true

instance : DecidableRel storeSortRel :=
  fun a b =>
    inferInstanceAs
      (Decidable ((charListLt a.name.data b.name.data
        || (a.name == b.name && a.tag ≤ b.tag)) = true))

/-- The store's sorting of a chat's populated users. -/
def storeSortUsers (l : List MUser) : List MUser :=
  List.insertionSort storeSortRel l

/-- The user list answered by the mongoose getChatUsers for a chat whose
populated users array is `users`. -/
def getChatUsersMongoose (users : List MUser) : List CUser :=
  (storeSortUsers users).map pluckUser

/-- Modelled from the spec's words, for comparison with the source-derived
definitions: the order the claim asserts for listChatUsers output — ascending
by displayName compared case-insensitively, with tag as the tiebreaker. -/
def specUserOrderLe (a b : CUser) : Prop :=
  charListLt (lowerChars a.name) (lowerChars b.name) = true ∨
    (lowerChars a.name = lowerChars b.name ∧ a.tag ≤ b.tag)

instance : DecidableRel specUserOrderLe := fun a b =>
  inferInstanceAs (Decidable (charListLt (lowerChars a.name) (lowerChars b.name) = true ∨
    (lowerChars a.name = lowerChars b.name ∧ a.tag ≤ b.tag)))

/-- The claim's sortedness property of a returned user list, from the spec's
words. -/
def specSortedByNameTag (l : List CUser) : Prop :=
  l.Pairwise specUserOrderLe

instance (l : List CUser) : Decidable (specSortedByNameTag l) :=
  inferInstanceAs (Decidable (l.Pairwise specUserOrderLe))

/-! ## User registration and tag assignment
(src/server/routes/AuthRouteManager.js, lines 33-57, and the registerUser job
of src/server/workers/threads/index.js).

`registerUser` awaits `User.getLatestUser()` (findOne sorted by createdAt
descending, i.e. the most recently saved user), computes
`tag = latestUser ? latestUser.tag + 1 : 1`, then awaits `user.save()`.
The two awaits are distinct suspension points of the Node event loop, so two
in-flight registrations can interleave between them; `regAdvance` makes the
two phases explicit steps. -/

/-- A stored user document as tag assignment sees it (name and tag; creation
order is the list order). -/
structure StoredUser where
  name : String
  tag : Nat
deriving DecidableEq, Repr

/-- User.getLatestUser: the most recently created (= last saved) user. -/
def getLatestUser (store : List StoredUser) : Option StoredUser :=
  store.getLast?

/-- The tag registerUser computes after reading the latest user. -/
def nextUserTag (store : List StoredUser) : Nat :=
  match getLatestUser store with
  | some latestUser => latestUser.tag + 1
  | none => 1

/-- user.save(): append the new user document to the store. -/
def saveUser (store : List StoredUser) (username : String) (tag : Nat) :
    List StoredUser :=
  store ++ [{ name := username, tag := tag }]

/-- Progress of one in-flight registerUser request: not yet past the
getLatestUser await; past it, holding its computed tag; or saved. -/
inductive RegPhase where
  | queued
  | readLatest (tag : Nat)
  | saved
deriving DecidableEq, Repr

/-- One in-flight registerUser request. -/
structure RegRequest where
  username : String
  phase : RegPhase
deriving DecidableEq, Repr

/-- The store plus the in-flight registrations. -/
structure RegSystem where
  store : List StoredUser
  requests : List RegRequest
deriving DecidableEq, Repr

/-- Advance request i across its next suspension point: a queued request
completes its getLatestUser read and computes its tag; a request holding a
tag completes its save.  Out-of-range or finished requests do nothing. -/
def regAdvance (sys : RegSystem) (i : Nat) : RegSystem :=
  match sys.requests[i]? with
  | none => sys
  | some req =>
    match req.phase with
    | .queued =>
      { sys with
        requests := sys.requests.set i
          { username := req.username, phase := .readLatest (nextUserTag sys.store) } }
    | .readLatest tag =>
      { store := saveUser sys.store req.username tag
        requests := sys.requests.set i { username := req.username, phase := .saved } }
    | .saved => sys

/-- Run a schedule, an interleaving of the in-flight requests' steps. -/
def runRegSchedule (sched : List Nat) (sys : RegSystem) : RegSystem :=
  sched.foldl regAdvance sys

/-- One whole registerUser running without interleaving: the getLatestUser
read immediately followed by the save. -/
def registerUserSeq (store : List StoredUser) (username : String) :
    List StoredUser :=
  saveUser store username (nextUserTag store)

/-- Register the users one after the other (each request completes before the
next starts), starting from an empty store. -/
def registerUsersInSequence (usernames : List String) : List StoredUser :=
  usernames.foldl registerUserSeq []

/-! ## createChat (createChat job of src/server/workers/threads/index.js,
and src/unnamed/part_002 lines 261-298). -/

/-- A chat document: `{_id, name}`. -/
structure SChat where
  id : Nat
  name : String
deriving DecidableEq, Repr

/-- An event emitted to every live connection (`io.emit`). -/
inductive GlobalEvent where
  | chatCreated (chat : SChat)
deriving DecidableEq, Repr

/-- Outcome of createChat. -/
inductive CreateChatResult where
  | validationError
  | conflict
  | userNotFound
  | created (chat : SChat)
deriving DecidableEq, Repr

/-- createChat: reject when userId is missing/invalid or chatName is missing;
reject with "Chat already exists" when a chat with exactly that name exists
(Chat.findOne on the name: exact, case-sensitive); 404 when the user does not
exist; otherwise save the chat and emit a global chatCreated event.  The store
generates the new document's id, passed in as newChatId.  Returns the result,
the chats after the call, and the emitted global events. -/
def createChat (chats : List SChat) (userIds : List Nat) (userId : Option Nat)
    (chatName : String) (newChatId : Nat) :
    CreateChatResult × List SChat × List GlobalEvent :=
  match userId with
  | none => (.validationError, chats, [])
  | some uid =>
    if chatName = "" then (.validationError, chats, [])
    else
      match chats.find? (fun c => c.name == chatName) with
      | some _ => (.conflict, chats, [])
      | none =>
        if userIds.contains uid then
          let chat : SChat := { id := newChatId, name := chatName }
          (.created chat, chats ++ [chat], [.chatCreated chat])
        else (.userNotFound, chats, [])

/-! ## postChatMessage (postChatMessage job of
src/server/workers/threads/index.js, lines 306-356, consumed by
ChatRouteManager.postChatMessage of src/server/routes/api/ChatRouteManager.js,
lines 102-128). -/

/-- One chat with its populated users array, as the job reads it. -/
structure PChat where
  id : Nat
  users : List MUser
deriving DecidableEq, Repr

/-- A message document: `{_id, chat, user, content}`. -/
structure SMsg where
  id : Nat
  chat : Nat
  user : Nat
  content : String
deriving DecidableEq, Repr

/-- The worker's reply for a postChatMessage job: the HTTP status plus, on
success only, the saved message and the posting user (both client objects). -/
structure JobReply where
  statusCode : Nat
  chatMessage : Option SMsg
  user : Option CUser
deriving DecidableEq, Repr

/-- An event emitted to the chat's room (`io.to(chatId).emit`). -/
inductive ChatEvent where
  | messagePosted (chatId : Nat) (message : SMsg)
  | userStoppedTyping (chatId : Nat) (user : CUser)
deriving DecidableEq, Repr

/-- The postChatMessage job: validate ids and content; find the chat (404),
find the user among the chat's users (404); then `await chatMessage.save()`.
When the save succeeds the job replies 200 with the message and the user;
when the save throws, the worker replies with an error and MainWorker.send
rejects, modelled as reply `none`.  Returns the reply and the message store
after the call. -/
def postChatMessageJob (chats : List PChat) (msgs : List SMsg)
    (chatId userId : Option Nat) (content : String) (saveOk : Bool)
    (newMsgId : Nat) : Option JobReply × List SMsg :=
  match chatId, userId with
  | some cid, some uid =>
    if content = "" then (some { statusCode := 400, chatMessage := none, user := none }, msgs)
    else
      match chats.find? (fun c => c.id == cid) with
      | none => (some { statusCode := 404, chatMessage := none, user := none }, msgs)
      | some chat =>
        match chat.users.find? (fun u => u.id == uid) with
        | none => (some { statusCode := 404, chatMessage := none, user := none }, msgs)
        | some user =>
          if saveOk then
            let m : SMsg := { id := newMsgId, chat := cid, user := uid, content := content }
            (some { statusCode := 200, chatMessage := some m, user := some (pluckUser user) },
             msgs ++ [m])
          else (none, msgs)
  | _, _ => (some { statusCode := 400, chatMessage := none, user := none }, msgs)

/-- ChatRouteManager.postChatMessage, after the worker replies: no reply (the
send promise rejected) emits nothing; otherwise emit messagePosted to the chat
room when the reply carries the message, then userStoppedTyping when it
carries the user. -/
def postChatMessageRoute (reply : Option JobReply) (chatId : Nat) : List ChatEvent :=
  match reply with
  | none => []
  | some r =>
    (match r.chatMessage with
     | some m => [ChatEvent.messagePosted chatId m]
     | none => []) ++
    (match r.user with
     | some u => [ChatEvent.userStoppedTyping chatId u]
     | none => [])

/-! ## Retention sweep (Server.deleteMessagesAndUnusedChatsSince,
src/server/Server.js lines 99-180, identical to the
deleteMessagesAndUnusedChatsSince job of src/server/workers/threads/index.js).

For every chat: delete the chat's messages with `createdAt <= cutoff`; skip
the rest for `general-chat`; otherwise count the chat's remaining messages
and, when none remain and the chat itself was created at or before the
cutoff, delete the chat.  The count and the chat removal run on promises that
only touch that chat's own (unique) id, so the sequential order below is
faithful for a sweep running alone. -/

/-- A chat document as the sweep reads it. -/
structure SweepChat where
  id : Nat
  name : String
  createdAt : Nat
deriving DecidableEq, Repr

/-- A message document as the sweep reads it. -/
structure SweepMsg where
  chat : Nat
  createdAt : Nat
deriving DecidableEq, Repr

/-- The `{chat: chat.id, createdAt: {$lte: sinceDate}}` filter of the sweep's
Message.deleteMany. -/
def sweepMsgMatches (chatId cutoff : Nat) (m : SweepMsg) : Bool :=
  m.chat == chatId && m.createdAt ≤ cutoff

/-- The sweep's running state: the message store, the chats not deleted so
far, and the counts of deleted messages and chats. -/
structure SweepState where
  msgs : List SweepMsg
  keptChats : List SweepChat
  deletedMsgs : Nat
  deletedChats : Nat
deriving DecidableEq, Repr

/-- One iteration of the sweep's chat loop. -/
def sweepStep (cutoff : Nat) (st : SweepState) (chat : SweepChat) : SweepState :=
  let msgs := st.msgs.filter (fun m => !sweepMsgMatches chat.id cutoff m)
  let n := st.msgs.length - msgs.length
  let st1 : SweepState :=
    { msgs := msgs
      keptChats := st.keptChats
      deletedMsgs := st.deletedMsgs + n
      deletedChats := st.deletedChats }
  if chat.name == "general-chat" then
    { st1 with keptChats := st1.keptChats ++ [chat] }
  else if 0 < msgs.countP (fun m => m.chat == chat.id) then
    { st1 with keptChats := st1.keptChats ++ [chat] }
  else if cutoff < chat.createdAt then
    { st1 with keptChats := st1.keptChats ++ [chat] }
  else
    { st1 with deletedChats := st1.deletedChats + 1 }

/-- deleteMessagesAndUnusedChatsSince over the whole chat list. -/
def sweep (cutoff : Nat) (chats : List SweepChat) (msgs : List SweepMsg) :
    SweepState :=
  chats.foldl (sweepStep cutoff)
    { msgs := msgs, keptChats := [], deletedMsgs := 0, deletedChats := 0 }

/-! ## Order properties of the character-list comparison -/

theorem charListLt_irrefl : ∀ l : List Char, charListLt l l = false
  | [] => rfl
  | a :: as => by
    simp [charListLt, charLt, charListLt_irrefl as]

theorem charListLt_trans : ∀ (a b c : List Char),
    charListLt a b = true → charListLt b c = true → charListLt a c = true
  | [], [], _, h1, _ => by simp [charListLt] at h1
  | [], _ :: _, [], _, h2 => by simp [charListLt] at h2
  | [], _ :: _, _ :: _, _, _ => by simp [charListLt]
  | _ :: _, [], _, h1, _ => by simp [charListLt] at h1
  | _ :: _, _ :: _, [], _, h2 => by simp [charListLt] at h2
  | a :: as, b :: bs, c :: cs, h1, h2 => by
    simp only [charListLt, charLt, Bool.or_eq_true, Bool.and_eq_true, beq_iff_eq,
      decide_eq_true_eq] at h1 h2 ⊢
    rcases h1 with h1 | ⟨rfl, h1⟩
    · rcases h2 with h2 | ⟨rfl, h2⟩
      · exact Or.inl (Nat.lt_trans h1 h2)
      · exact Or.inl h1
    · rcases h2 with h2 | ⟨rfl, h2⟩
      · exact Or.inl h2
      · exact Or.inr ⟨rfl, charListLt_trans as bs cs h1 h2⟩

theorem charListLt_total : ∀ (a b : List Char),
    charListLt a b = true ∨ a = b ∨ charListLt b a = true
  | [], [] => Or.inr (Or.inl rfl)
  | [], _ :: _ => Or.inl (by simp [charListLt])
  | _ :: _, [] => Or.inr (Or.inr (by simp [charListLt]))
  | a :: as, b :: bs => by
    rcases Nat.lt_trichotomy a.toNat b.toNat with h | h | h
    · exact Or.inl (by simp [charListLt, charLt, h])
    · have hab : a = b := Char.ext (UInt32.toNat.inj h)
      subst hab
      rcases charListLt_total as bs with h' | h' | h'
      · exact Or.inl (by simp [charListLt, h'])
      · exact Or.inr (Or.inl (by rw [h']))
      · exact Or.inr (Or.inr (by simp [charListLt, h']))
    · exact Or.inr (Or.inr (by simp [charListLt, charLt, h]))

theorem sortByNameRel_total (a b : MUser) : sortByNameRel a b ∨ sortByNameRel b a := by
  by_cases h1 : charListLt (lowerChars b.name) (lowerChars a.name) = true
  · by_cases h2 : charListLt (lowerChars a.name) (lowerChars b.name) = true
    · exact absurd (charListLt_trans _ _ _ h1 h2) (by simp [charListLt_irrefl])
    · exact Or.inr (by simp [sortByNameRel, sortByNameLe, h2])
  · exact Or.inl (by simp [sortByNameRel, sortByNameLe, h1])

theorem sortByNameRel_trans (a b c : MUser)
    (h1 : sortByNameRel a b) (h2 : sortByNameRel b c) : sortByNameRel a c := by
  simp only [sortByNameRel, sortByNameLe, Bool.not_eq_true'] at h1 h2 ⊢
  rcases charListLt_total (lowerChars a.name) (lowerChars b.name) with hab | hab | hab
  · cases hv : charListLt (lowerChars c.name) (lowerChars a.name) with
    | false => rfl
    | true => exact absurd (charListLt_trans _ _ _ hv hab) (by simp [h2])
  · rw [hab]
    exact h2
  · rw [h1] at hab
    exact Bool.noConfusion hab

/-! ## Typing tracker lemmas -/

theorem typingIds_def (s : WorkerTypingState) :
    typingIds s = s.typingUsersWithTimeout.map (fun el => el.user.id) := by
  simp [typingIds, getTypingUsers, List.map_map, Function.comp]

theorem mem_map_of_mem_map_eraseP {α β : Type} (f : α → β) (p : α → Bool)
    (l : List α) {x : β} (hx : x ∈ (l.eraseP p).map f) : x ∈ l.map f :=
  ((List.eraseP_sublist l).map f).subset hx

theorem typingStep_not_mem (localUserId uid : Nat) (s : WorkerTypingState)
    (e : TypingEvent) (hs : uid ∉ typingIds s)
    (he : ∀ u, e = TypingEvent.started u → u.id = uid → uid = localUserId) :
    uid ∉ typingIds (typingStep localUserId s e) := by
  rw [typingIds_def] at hs
  rw [typingIds_def]
  cases e with
  | started u =>
    by_cases h1 : (u.id == localUserId) = true
    · simpa [typingStep, onUserStartedTyping, h1] using hs
    · by_cases h2 : (s.typingUsersWithTimeout.any fun el => el.user.id == u.id) = true
      · simpa [typingStep, onUserStartedTyping, h1, h2] using hs
      · have hu : u.id ≠ uid := by
          intro hEq
          apply h1
          rw [hEq, he u rfl hEq]
          exact beq_self_eq_true localUserId
        simp only [typingStep, onUserStartedTyping, h1, h2, Bool.false_eq_true,
          if_false, List.map_append, List.map_cons, List.map_nil]
        intro hmem
        rcases List.mem_append.mp hmem with hmem | hmem
        · exact hs hmem
        · exact hu (Eq.symm (by simpa using hmem))
  | stopped v =>
    simp only [typingStep, onUserStoppedTyping]
    cases hf : s.typingUsersWithTimeout.find? (fun el => el.user.id == v) with
    | none => exact hs
    | some removed =>
      intro hmem
      exact hs (mem_map_of_mem_map_eraseP _ _ _ hmem)
  | timeoutFired v =>
    simp only [typingStep, typingTimeoutFire]
    by_cases h2 : (s.typingUsersWithTimeout.any fun el => el.user.id == v) = true
    · simp only [h2, if_true]
      intro hmem
      exact hs (mem_map_of_mem_map_eraseP _ _ _ hmem)
    · simpa [h2] using hs

theorem runTypingEvents_not_mem (localUserId uid : Nat) (events : List TypingEvent)
    (s : WorkerTypingState) (hs : uid ∉ typingIds s)
    (he : ∀ u, TypingEvent.started u ∈ events → u.id = uid → uid = localUserId) :
    uid ∉ typingIds (runTypingEvents localUserId events s) := by
  induction events generalizing s with
  | nil => exact hs
  | cons e rest ih =>
    exact ih (typingStep localUserId s e)
      (typingStep_not_mem localUserId uid s e hs
        (fun u hu => he u (by rw [hu]; exact List.mem_cons_self _ _)))
      (fun u hu => he u (List.mem_cons_of_mem _ hu))

theorem typingStep_nodup (localUserId : Nat) (s : WorkerTypingState)
    (e : TypingEvent) (hs : (typingIds s).Nodup) :
    (typingIds (typingStep localUserId s e)).Nodup := by
  rw [typingIds_def] at hs
  rw [typingIds_def]
  cases e with
  | started u =>
    by_cases h1 : (u.id == localUserId) = true
    · simpa [typingStep, onUserStartedTyping, h1] using hs
    · by_cases h2 : (s.typingUsersWithTimeout.any fun el => el.user.id == u.id) = true
      · simpa [typingStep, onUserStartedTyping, h1, h2] using hs
      · have hnotin : u.id ∉ s.typingUsersWithTimeout.map (fun el => el.user.id) := by
          intro hmem
          rcases List.mem_map.mp hmem with ⟨el, hel, helId⟩
          exact h2 (List.any_eq_true.mpr ⟨el, hel, by simp [helId]⟩)
        simp only [typingStep, onUserStartedTyping, h1, h2, Bool.false_eq_true,
          if_false, List.map_append, List.map_cons, List.map_nil]
        simp only [List.nodup_append, List.nodup_cons, List.not_mem_nil,
          not_false_eq_true, List.nodup_nil, and_true, true_and]
        exact ⟨hs, by simpa [List.disjoint_singleton] using hnotin⟩
  | stopped v =>
    simp only [typingStep, onUserStoppedTyping]
    cases hf : s.typingUsersWithTimeout.find? (fun el => el.user.id == v) with
    | none => exact hs
    | some removed =>
      exact List.Nodup.sublist ((List.eraseP_sublist _).map _) hs
  | timeoutFired v =>
    simp only [typingStep, typingTimeoutFire]
    by_cases h2 : (s.typingUsersWithTimeout.any fun el => el.user.id == v) = true
    · simp only [h2, if_true]
      exact List.Nodup.sublist ((List.eraseP_sublist _).map _) hs
    · simpa [h2] using hs

theorem runTypingEvents_nodup (localUserId : Nat) (events : List TypingEvent)
    (s : WorkerTypingState) (hs : (typingIds s).Nodup) :
    (typingIds (runTypingEvents localUserId events s)).Nodup := by
  induction events generalizing s with
  | nil => exact hs
  | cons e rest ih =>
    exact ih (typingStep localUserId s e) (typingStep_nodup localUserId s e hs)

theorem not_mem_map_eraseP_self {α : Type} (f : α → Nat) (uid : Nat) :
    ∀ l : List α, (l.map f).Nodup →
      uid ∉ (l.eraseP (fun x => f x == uid)).map f
  | [], _ => by simp
  | x :: l, h => by
    rw [List.eraseP_cons]
    by_cases hx : (f x == uid) = true
    · simp only [hx, cond_true]
      have hl : f x ∉ l.map f := (List.nodup_cons.mp (by simpa using h)).1
      rw [← beq_iff_eq.mp hx]
      exact hl
    · simp only [Bool.not_eq_true] at hx
      simp only [hx, cond_false, List.map_cons]
      intro hmem
      rcases List.mem_cons.mp hmem with hmem | hmem
      · exact (by simpa using hx : f x ≠ uid) hmem.symm
      · exact not_mem_map_eraseP_self f uid l
          (List.nodup_cons.mp (by simpa using h)).2 hmem

theorem onUserStoppedTyping_not_mem (uid : Nat) (s : WorkerTypingState)
    (hs : (typingIds s).Nodup) : uid ∉ typingIds (onUserStoppedTyping uid s) := by
  rw [typingIds_def] at hs
  rw [typingIds_def]
  unfold onUserStoppedTyping
  cases hf : s.typingUsersWithTimeout.find? (fun el => el.user.id == uid) with
  | none =>
    intro hmem
    rcases List.mem_map.mp hmem with ⟨el, hel, helId⟩
    have hall := List.find?_eq_none.mp hf
    exact hall el hel (by simpa using helId)
  | some removed =>
    exact not_mem_map_eraseP_self (fun el : TypingUserWithTimeout => el.user.id) uid _ hs

/-- Claim C10: the client-side typing tracker never contains the local user:
every userStartedTyping event whose user id equals the local user's id is
ignored, so for every sequence of typing events the local user's id never
appears in that client's typing-user list (and thus never in its rendered
typing indicator). -/
theorem C10_local_user_never_in_typing_list (localUserId : Nat)
    (events : List TypingEvent) :
    localUserId ∉ typingIds (runTypingEvents localUserId events typingStart0) :=
  runTypingEvents_not_mem localUserId localUserId events typingStart0
    (by simp [typingIds, getTypingUsers, typingStart0])
    (fun _ _ _ => rfl)

/-- Claim C6 counterexample: the claim's "for every (chatId, userId), if no
typing entry exists, startTyping creates one and schedules a timeout" fails
for the client's own user: with local user id 7 and an empty tracker, a
userStartedTyping event for user id 7 creates no entry, schedules no timer and
publishes nothing — the state is unchanged. -/
theorem C6_counterexample :
    typingStart0.typingUsersWithTimeout = [] ∧
      onUserStartedTyping 7 { id := 7, name := "self", tag := 1 } typingStart0
        = typingStart0 :=
  ⟨rfl, by decide⟩

/-- Claim C6 (amended): for every user other than the client's own local user,
if no typing entry exists for the user's id, the userStartedTyping handler
appends one entry carrying a fresh timer with the 10000 ms (10 second) delay
and publishes the updated typing-user list; if an entry already exists the
event is a complete no-op (the entry and its running timer are untouched);
and the firing of the scheduled timeout removes the entry and publishes the
updated typing-user list, doing nothing when the entry is already gone. -/
theorem C6_startTyping_semantics (localUserId : Nat) (u : CUser)
    (s : WorkerTypingState) :
    (u.id ≠ localUserId →
      (¬ ∃ el ∈ s.typingUsersWithTimeout, el.user.id = u.id) →
      onUserStartedTyping localUserId u s =
        { typingUsersWithTimeout := s.typingUsersWithTimeout ++
            [{ user := u, timerId := s.nextTimerId, delayMs := 10000 }]
          nextTimerId := s.nextTimerId + 1
          cancelledTimers := s.cancelledTimers
          publishedTypingLists := s.publishedTypingLists ++
            [getTypingUsers (s.typingUsersWithTimeout ++
              [{ user := u, timerId := s.nextTimerId, delayMs := 10000 }])] }) ∧
    ((∃ el ∈ s.typingUsersWithTimeout, el.user.id = u.id) →
      onUserStartedTyping localUserId u s = s) ∧
    (∀ uid : Nat,
      ((∃ el ∈ s.typingUsersWithTimeout, el.user.id = uid) →
        typingTimeoutFire uid s =
          { s with
            typingUsersWithTimeout :=
              s.typingUsersWithTimeout.eraseP (fun el => el.user.id == uid)
            publishedTypingLists := s.publishedTypingLists ++
              [getTypingUsers
                (s.typingUsersWithTimeout.eraseP (fun el => el.user.id == uid))] }) ∧
      ((¬ ∃ el ∈ s.typingUsersWithTimeout, el.user.id = uid) →
        typingTimeoutFire uid s = s)) := by
  refine ⟨?_, ?_, ?_⟩
  · intro hne hnex
    have h1 : (u.id == localUserId) = false := by simpa using hne
    have h2 : (s.typingUsersWithTimeout.any fun el => el.user.id == u.id) = false := by
      rw [List.any_eq_false]
      intro el hel h
      exact hnex ⟨el, hel, by simpa using h⟩
    simp [onUserStartedTyping, h1, h2]
  · intro hex
    rcases hex with ⟨el, hel, heq⟩
    by_cases h1 : (u.id == localUserId) = true
    · simp [onUserStartedTyping, h1]
    · have h2 : (s.typingUsersWithTimeout.any fun el => el.user.id == u.id) = true :=
        List.any_eq_true.mpr ⟨el, hel, by simpa using heq⟩
      simp [onUserStartedTyping, h1, h2]
  · intro uid
    constructor
    · intro hex
      rcases hex with ⟨el, hel, heq⟩
      have h2 : (s.typingUsersWithTimeout.any fun el => el.user.id == uid) = true :=
        List.any_eq_true.mpr ⟨el, hel, by simpa using heq⟩
      simp [typingTimeoutFire, h2]
    · intro hnex
      have h2 : (s.typingUsersWithTimeout.any fun el => el.user.id == uid) = false := by
        rw [List.any_eq_false]
        intro el hel h
        exact hnex ⟨el, hel, by simpa using h⟩
      simp [typingTimeoutFire, h2]

/-- Witness for C6's amended theorem at a concrete input: user 3 starts typing
in a tracker whose local user is 9; an entry with a 10000 ms timer appears and
the updated list is published. -/
theorem C6_startTyping_semantics_witness :
    onUserStartedTyping 9 { id := 3, name := "bob", tag := 1 } typingStart0 =
      { typingUsersWithTimeout :=
          [{ user := { id := 3, name := "bob", tag := 1 }, timerId := 0, delayMs := 10000 }]
        nextTimerId := 1
        cancelledTimers := []
        publishedTypingLists := [[{ id := 3, name := "bob", tag := 1 }]] } := by
  have h := (C6_startTyping_semantics 9 { id := 3, name := "bob", tag := 1 } typingStart0).1
    (by decide) (by decide)
  rw [h]
  decide

/-! ## postChatMessage lemmas -/

theorem postChatMessageJob_success
    (chats : List PChat) (msgs : List SMsg) (cid uid : Nat) (content : String)
    (saveOk : Bool) (newMsgId : Nat) (r : JobReply)
    (hr : (postChatMessageJob chats msgs (some cid) (some uid) content saveOk
      newMsgId).1 = some r)
    (h200 : r.statusCode = 200) :
    ∃ m u, r.chatMessage = some m ∧ r.user = some u ∧ u.id = uid := by
  simp only [postChatMessageJob] at hr
  split at hr
  · injection hr with h
    rw [← h] at h200
    simp at h200
  · split at hr
    · injection hr with h
      rw [← h] at h200
      simp at h200
    · split at hr
      · injection hr with h
        rw [← h] at h200
        simp at h200
      · rename_i user huser
        split at hr
        · injection hr with h
          refine ⟨{ id := newMsgId, chat := cid, user := uid, content := content },
            pluckUser user, ?_, ?_, ?_⟩
          · rw [← h]
          · rw [← h]
          · have := List.find?_some huser
            simpa [pluckUser] using this
        · exact absurd hr (by simp)

/-- Claim C5: for every successful postMessage, the message is persisted and
the broadcasts happen afterwards in the order messagePosted then
userStoppedTyping, both scoped to the chat; on a save failure (the worker's
send promise rejects) nothing is broadcast and the store is unchanged; and
whenever any broadcast happens at all, the message was persisted by a
200 reply. -/
theorem C5_postMessage_persist_then_broadcast
    (chats : List PChat) (msgs : List SMsg) (chatId userId : Option Nat)
    (content : String) (saveOk : Bool) (newMsgId : Nat) (cid : Nat) :
    (saveOk = false →
      postChatMessageRoute
        (postChatMessageJob chats msgs chatId userId content saveOk newMsgId).1 cid = [] ∧
      (postChatMessageJob chats msgs chatId userId content saveOk newMsgId).2 = msgs) ∧
    (∀ r m u,
      (postChatMessageJob chats msgs chatId userId content saveOk newMsgId).1 = some r →
      r.chatMessage = some m → r.user = some u →
      (postChatMessageJob chats msgs chatId userId content saveOk newMsgId).2 = msgs ++ [m] ∧
      postChatMessageRoute (some r) cid =
        [ChatEvent.messagePosted cid m, ChatEvent.userStoppedTyping cid u]) ∧
    (postChatMessageRoute
        (postChatMessageJob chats msgs chatId userId content saveOk newMsgId).1 cid ≠ [] →
      ∃ m r, (postChatMessageJob chats msgs chatId userId content saveOk newMsgId).2 = msgs ++ [m] ∧
        (postChatMessageJob chats msgs chatId userId content saveOk newMsgId).1 = some r ∧
        r.statusCode = 200) := by
  cases chatId with
  | none =>
    refine ⟨fun _ => ⟨by simp [postChatMessageJob, postChatMessageRoute], rfl⟩,
      fun r m u hr hm hu => ?_, fun hne => ?_⟩
    · simp only [postChatMessageJob] at hr
      injection hr with h
      rw [← h] at hm
      simp at hm
    · exact absurd (by simp [postChatMessageJob, postChatMessageRoute]) hne
  | some cid' =>
    cases userId with
    | none =>
      refine ⟨fun _ => ⟨by simp [postChatMessageJob, postChatMessageRoute], rfl⟩,
        fun r m u hr hm hu => ?_, fun hne => ?_⟩
      · simp only [postChatMessageJob] at hr
        injection hr with h
        rw [← h] at hm
        simp at hm
      · exact absurd (by simp [postChatMessageJob, postChatMessageRoute]) hne
    | some uid =>
      refine ⟨?_, ?_, ?_⟩
      · intro hsave
        subst hsave
        simp only [postChatMessageJob]
        split
        · exact ⟨by simp [postChatMessageRoute], rfl⟩
        · split
          · exact ⟨by simp [postChatMessageRoute], rfl⟩
          · split
            · exact ⟨by simp [postChatMessageRoute], rfl⟩
            · exact ⟨by simp [postChatMessageRoute], rfl⟩
      · intro r m u
        simp only [postChatMessageJob]
        split
        · intro hr hm hu
          injection hr with h
          rw [← h] at hm
          simp at hm
        · split
          · intro hr hm hu
            injection hr with h
            rw [← h] at hm
            simp at hm
          · split
            · intro hr hm hu
              injection hr with h
              rw [← h] at hm
              simp at hm
            · split
              · intro hr hm hu
                injection hr with h
                subst h
                simp only [Option.some.injEq] at hm hu
                subst hm
                subst hu
                exact ⟨rfl, by simp [postChatMessageRoute]⟩
              · intro hr hm hu
                exact absurd hr (by simp)
      · simp only [postChatMessageJob]
        split
        · intro hne
          exact absurd (by simp [postChatMessageRoute]) hne
        · split
          · intro hne
            exact absurd (by simp [postChatMessageRoute]) hne
          · split
            · intro hne
              exact absurd (by simp [postChatMessageRoute]) hne
            · split
              · intro _
                exact ⟨{ id := newMsgId, chat := cid', user := uid, content := content },
                  _, rfl, rfl, rfl⟩
              · intro hne
                exact absurd (by simp [postChatMessageRoute]) hne

/-- Witness for C5 at a concrete input: user 2 posts "hi" in chat 1; the
message is persisted and messagePosted precedes userStoppedTyping. -/
theorem C5_postMessage_witness :
    (postChatMessageJob [{ id := 1, users := [{ id := 2, name := "alice", tag := 1 }] }]
      [] (some 1) (some 2) "hi" true 5).2 =
      [] ++ [{ id := 5, chat := 1, user := 2, content := "hi" }] ∧
    postChatMessageRoute
      (some { statusCode := 200,
              chatMessage := some { id := 5, chat := 1, user := 2, content := "hi" },
              user := some { id := 2, name := "alice", tag := 1 } }) 1 =
      [ChatEvent.messagePosted 1 { id := 5, chat := 1, user := 2, content := "hi" },
       ChatEvent.userStoppedTyping 1 { id := 2, name := "alice", tag := 1 }] :=
  (C5_postMessage_persist_then_broadcast
    [{ id := 1, users := [{ id := 2, name := "alice", tag := 1 }] }] []
    (some 1) (some 2) "hi" true 5 1).2.1
    { statusCode := 200,
      chatMessage := some { id := 5, chat := 1, user := 2, content := "hi" },
      user := some { id := 2, name := "alice", tag := 1 } }
    { id := 5, chat := 1, user := 2, content := "hi" }
    { id := 2, name := "alice", tag := 1 }
    (by decide) rfl rfl

/-- Claim C7: after a successful postMessage for (chat, user), the
userStoppedTyping broadcast names exactly the posting user; processing it in
the client tracker removes the user's entry, after which the user is absent
from the typing-user list and stays absent through any further events that
contain no new userStartedTyping for that user (so every subsequent listTyping
excludes the user, even when a signalTyping arrived just before the post); the
removal is a no-op when the entry is absent. -/
theorem C7_postMessage_clears_typing
    (chats : List PChat) (msgs : List SMsg) (cid uid : Nat) (content : String)
    (newMsgId : Nat) (r : JobReply) (localUserId : Nat)
    (evs0 evs1 : List TypingEvent)
    (hr : (postChatMessageJob chats msgs (some cid) (some uid) content true
      newMsgId).1 = some r)
    (h200 : r.statusCode = 200) :
    (∃ m u, r.chatMessage = some m ∧ r.user = some u ∧ u.id = uid ∧
      postChatMessageRoute (some r) cid =
        [ChatEvent.messagePosted cid m, ChatEvent.userStoppedTyping cid u]) ∧
    uid ∉ typingIds
      (onUserStoppedTyping uid (runTypingEvents localUserId evs0 typingStart0)) ∧
    ((∀ v, TypingEvent.started v ∈ evs1 → v.id ≠ uid) →
      uid ∉ typingIds (runTypingEvents localUserId evs1
        (onUserStoppedTyping uid (runTypingEvents localUserId evs0 typingStart0)))) ∧
    (∀ s : WorkerTypingState,
      (¬ ∃ el ∈ s.typingUsersWithTimeout, el.user.id = uid) →
      onUserStoppedTyping uid s = s) := by
  obtain ⟨m, u, hm, hu, hid⟩ :=
    postChatMessageJob_success chats msgs cid uid content true newMsgId r hr h200
  have hnd : (typingIds (runTypingEvents localUserId evs0 typingStart0)).Nodup :=
    runTypingEvents_nodup localUserId evs0 typingStart0
      (by simp [typingIds, getTypingUsers, typingStart0])
  have hstop : uid ∉ typingIds
      (onUserStoppedTyping uid (runTypingEvents localUserId evs0 typingStart0)) :=
    onUserStoppedTyping_not_mem uid _ hnd
  refine ⟨⟨m, u, hm, hu, hid, by simp [postChatMessageRoute, hm, hu]⟩, hstop, ?_, ?_⟩
  · intro hnostart
    exact runTypingEvents_not_mem localUserId uid evs1 _ hstop
      (fun v hv heq => absurd heq (hnostart v hv))
  · intro s hnex
    unfold onUserStoppedTyping
    have hf : s.typingUsersWithTimeout.find? (fun el => el.user.id == uid) = none := by
      rw [List.find?_eq_none]
      intro el hel h
      exact hnex ⟨el, hel, by simpa using h⟩
    rw [hf]

/-- Witness for C7 at a concrete input: user 2 signals typing, then posts
"hi" in chat 1 successfully; processing the resulting userStoppedTyping event
leaves user 2 absent from the typing-user list. -/
theorem C7_postMessage_clears_typing_witness :
    2 ∉ typingIds (onUserStoppedTyping 2
      (runTypingEvents 99 [TypingEvent.started { id := 2, name := "alice", tag := 1 }]
        typingStart0)) :=
  (C7_postMessage_clears_typing
    [{ id := 1, users := [{ id := 2, name := "alice", tag := 1 }] }] [] 1 2 "hi" 5
    { statusCode := 200,
      chatMessage := some { id := 5, chat := 1, user := 2, content := "hi" },
      user := some { id := 2, name := "alice", tag := 1 } }
    99 [TypingEvent.started { id := 2, name := "alice", tag := 1 }] []
    (by decide) rfl).2.1

/-! ## Presence edge lemmas (mongoose socket handlers) -/

theorem getMatchedUsers_length (users : List MUser) (u : MUser) :
    (getMatchedUsers users u).length = matchedCount u.id users := by
  simp [getMatchedUsers, matchedCount, List.countP_eq_length_filter]

theorem countP_eraseP_self {α : Type} (p : α → Bool) :
    ∀ l : List α, l.any p = true → (l.eraseP p).countP p = l.countP p - 1
  | [], h => by simp at h
  | x :: l, h => by
    rw [List.eraseP_cons]
    by_cases hx : p x = true
    · simp [hx, List.countP_cons]
    · have hl : l.any p = true := by
        rcases List.any_eq_true.mp h with ⟨a, ha, hpa⟩
        rcases List.mem_cons.mp ha with rfl | ha
        · exact absurd hpa hx
        · exact List.any_eq_true.mpr ⟨a, ha, hpa⟩
      have hpos : 0 < l.countP p := by
        rcases List.any_eq_true.mp hl with ⟨a, ha, hpa⟩
        exact List.countP_pos_iff.mpr ⟨a, ha, hpa⟩
      have hrec := countP_eraseP_self p l hl
      simp only [Bool.not_eq_true] at hx
      simp only [hx, cond_false, List.countP_cons, hrec, Bool.false_eq_true, if_false]
      omega

theorem matchedCount_append_self (u : MUser) (l : List MUser) :
    matchedCount u.id (l ++ [u]) = matchedCount u.id l + 1 := by
  simp [matchedCount, List.countP_append]

theorem socketOnConnect_cases (u : MUser) (s : SocketChatState) :
    socketOnConnect u s =
      if matchedCount u.id s.users = 0 then
        { users := s.users ++ [u]
          connectedEvents := s.connectedEvents + 1
          disconnectedEvents := s.disconnectedEvents }
      else
        { users := s.users ++ [u]
          connectedEvents := s.connectedEvents
          disconnectedEvents := s.disconnectedEvents } := by
  simp only [socketOnConnect]
  rw [getMatchedUsers_length, matchedCount_append_self]
  by_cases hc : matchedCount u.id s.users = 0
  · simp [hc]
  · have hfalse : (matchedCount u.id s.users + 1 == 1) = false := by
      simp
      omega
    simp [hfalse, hc]

theorem socketOnDisconnect_cases (u : MUser) (s : SocketChatState) :
    socketOnDisconnect u s =
      if matchedCount u.id s.users = 0 then s
      else if matchedCount u.id s.users = 1 then
        { users := s.users.eraseP fun x => x.id == u.id
          connectedEvents := s.connectedEvents
          disconnectedEvents := s.disconnectedEvents + 1 }
      else
        { users := s.users.eraseP fun x => x.id == u.id
          connectedEvents := s.connectedEvents
          disconnectedEvents := s.disconnectedEvents } := by
  simp only [socketOnDisconnect]
  by_cases h0 : matchedCount u.id s.users = 0
  · have hany : (s.users.any fun x => x.id == u.id) = false := by
      rw [List.any_eq_false]
      intro x hx hpx
      have : 0 < matchedCount u.id s.users := List.countP_pos_iff.mpr ⟨x, hx, hpx⟩
      omega
    simp [hany, h0]
  · have hany : (s.users.any fun x => x.id == u.id) = true := by
      rcases List.countP_pos_iff.mp (Nat.pos_of_ne_zero h0) with ⟨x, hx, hpx⟩
      exact List.any_eq_true.mpr ⟨x, hx, hpx⟩
    have herase := countP_eraseP_self (fun x => x.id == u.id) s.users hany
    rw [getMatchedUsers_length]
    by_cases h1 : matchedCount u.id s.users = 1
    · have hz : matchedCount u.id (s.users.eraseP fun x => x.id == u.id) = 0 := by
        unfold matchedCount at h1 ⊢
        rw [herase]
        omega
      simp [hany, hz, h0, h1]
    · have hz : (matchedCount u.id (s.users.eraseP fun x => x.id == u.id) == 0) = false := by
        unfold matchedCount at h0 h1 ⊢
        rw [herase]
        simp only [beq_eq_false_iff_ne, ne_eq]
        omega
      simp [hany, hz, h0, h1]

theorem presenceStep_sim (u : MUser) (s : SocketChatState) (op : PresenceOp) :
    presenceView u.id (presenceStep u s op) =
      presenceViewStep (presenceView u.id s) op := by
  cases op with
  | connect =>
    show presenceView u.id (socketOnConnect u s) = _
    rw [socketOnConnect_cases]
    by_cases hc : matchedCount u.id s.users = 0
    · rw [if_pos hc]
      simp [presenceView, presenceViewStep, matchedCount_append_self, hc]
    · rw [if_neg hc]
      simp [presenceView, presenceViewStep, matchedCount_append_self, hc]
  | disconnect =>
    show presenceView u.id (socketOnDisconnect u s) = _
    rw [socketOnDisconnect_cases]
    by_cases h0 : matchedCount u.id s.users = 0
    · rw [if_pos h0]
      simp [presenceView, presenceViewStep, h0]
    · have hany : (s.users.any fun x => x.id == u.id) = true := by
        rcases List.countP_pos_iff.mp (Nat.pos_of_ne_zero h0) with ⟨x, hx, hpx⟩
        exact List.any_eq_true.mpr ⟨x, hx, hpx⟩
      have herase := countP_eraseP_self (fun x => x.id == u.id) s.users hany
      rw [if_neg h0]
      by_cases h1 : matchedCount u.id s.users = 1
      · rw [if_pos h1]
        have hz : matchedCount u.id (s.users.eraseP fun x => x.id == u.id) = 0 := by
          unfold matchedCount at h1 ⊢
          rw [herase]
          omega
        simp [presenceView, presenceViewStep, hz, h0, h1]
      · rw [if_neg h1]
        have hz : matchedCount u.id (s.users.eraseP fun x => x.id == u.id) =
            matchedCount u.id s.users - 1 := by
          unfold matchedCount at h0 h1 ⊢
          rw [herase]
        simp [presenceView, presenceViewStep, hz, h0, h1]

theorem runPresenceOps_sim (u : MUser) (ops : List PresenceOp) (s : SocketChatState) :
    presenceView u.id (runPresenceOps u ops s) =
      runPresenceView ops (presenceView u.id s) := by
  induction ops generalizing s with
  | nil => rfl
  | cons op rest ih =>
    show presenceView u.id (runPresenceOps u rest (presenceStep u s op)) =
      runPresenceView rest (presenceViewStep (presenceView u.id s) op)
    rw [ih, presenceStep_sim]

theorem countConnects_nil : countConnects [] = 0 := rfl

theorem countDisconnects_nil : countDisconnects [] = 0 := rfl

theorem countConnects_cons_connect (l : List PresenceOp) :
    countConnects (.connect :: l) = countConnects l + 1 := by
  simp [countConnects, List.countP_cons]

theorem countConnects_cons_disconnect (l : List PresenceOp) :
    countConnects (.disconnect :: l) = countConnects l := by
  simp [countConnects, List.countP_cons]

theorem countDisconnects_cons_connect (l : List PresenceOp) :
    countDisconnects (.connect :: l) = countDisconnects l := by
  simp [countDisconnects, List.countP_cons]

theorem countDisconnects_cons_disconnect (l : List PresenceOp) :
    countDisconnects (.disconnect :: l) = countDisconnects l + 1 := by
  simp [countDisconnects, List.countP_cons]

theorem runPresenceView_session : ∀ (ops : List PresenceOp) (n c d : Nat),
    1 ≤ n →
    (∀ i, 0 < i → i < ops.length →
      countDisconnects (List.take i ops) < countConnects (List.take i ops) + n) →
    countConnects ops + n = countDisconnects ops →
    runPresenceView ops { count := n, connectedEvents := c, disconnectedEvents := d }
      = { count := 0, connectedEvents := c, disconnectedEvents := d + 1 }
  | [], n, c, d, hn, _, hbal => by
    rw [countConnects_nil, countDisconnects_nil] at hbal
    omega
  | .connect :: rest, n, c, d, hn, hpre, hbal => by
    have hne : n ≠ 0 := by omega
    have hstep : presenceViewStep { count := n, connectedEvents := c, disconnectedEvents := d }
        PresenceOp.connect = { count := n + 1, connectedEvents := c, disconnectedEvents := d } := by
      simp [presenceViewStep, hne]
    show runPresenceView rest (presenceViewStep _ PresenceOp.connect) = _
    rw [hstep]
    apply runPresenceView_session rest (n + 1) c d (by omega)
    · intro i h1 h2
      have := hpre (i + 1) (by omega) (by simp only [List.length_cons]; omega)
      rw [List.take_succ_cons, countConnects_cons_connect, countDisconnects_cons_connect] at this
      omega
    · rw [countConnects_cons_connect, countDisconnects_cons_connect] at hbal
      omega
  | .disconnect :: rest, n, c, d, hn, hpre, hbal => by
    cases rest with
    | nil =>
      have hone : n = 1 := by
        rw [countConnects_cons_disconnect, countDisconnects_cons_disconnect,
          countConnects_nil, countDisconnects_nil] at hbal
        omega
      subst hone
      show runPresenceView [] (presenceViewStep _ PresenceOp.disconnect) = _
      simp [runPresenceView, presenceViewStep]
    | cons r rs =>
      have h2 : 2 ≤ n := by
        have h := hpre 1 (by omega) (by simp only [List.length_cons]; omega)
        rw [List.take_succ_cons, List.take_zero, countConnects_cons_disconnect,
          countDisconnects_cons_disconnect, countConnects_nil, countDisconnects_nil] at h
        omega
      have hne : n ≠ 0 := by omega
      have hne1 : n ≠ 1 := by omega
      have hstep : presenceViewStep { count := n, connectedEvents := c, disconnectedEvents := d }
          PresenceOp.disconnect
          = { count := n - 1, connectedEvents := c, disconnectedEvents := d } := by
        simp [presenceViewStep, hne, hne1]
      show runPresenceView (r :: rs) (presenceViewStep _ PresenceOp.disconnect) = _
      rw [hstep]
      apply runPresenceView_session (r :: rs) (n - 1) c d (by omega)
      · intro i h1 hi
        have := hpre (i + 1) (by omega) (by simp only [List.length_cons] at hi ⊢; omega)
        rw [List.take_succ_cons, countConnects_cons_disconnect,
          countDisconnects_cons_disconnect] at this
        omega
      · rw [countConnects_cons_disconnect, countDisconnects_cons_disconnect] at hbal
        omega

/-- Claim C1 counterexample: the in-memory Socket variant emits userConnected
on every connect and userDisconnected on every disconnect.  For the pair
(chat, user 1), the sequence connect, connect, disconnect, disconnect (two
overlapping connections) emits two userConnected and two userDisconnected
events — not exactly one of each. -/
theorem C1_counterexample :
    (runMemSocket [.connect { id := 1, name := "alice", tag := 1 },
        .connect { id := 1, name := "alice", tag := 1 },
        .disconnect 1, .disconnect 1] memChatStart).connectedEvents = 2 ∧
    (runMemSocket [.connect { id := 1, name := "alice", tag := 1 },
        .connect { id := 1, name := "alice", tag := 1 },
        .disconnect 1, .disconnect 1] memChatStart).disconnectedEvents = 2 ∧
    ¬ ((runMemSocket [.connect { id := 1, name := "alice", tag := 1 },
        .connect { id := 1, name := "alice", tag := 1 },
        .disconnect 1, .disconnect 1] memChatStart).connectedEvents = 1) := by
  exact ⟨by decide, by decide, by decide⟩

/-- Claim C1 (amended): for the persistent (mongoose) Socket handlers, for
every (chat, user) pair starting with no connections and every interleaving of
N connects and N disconnects for that pair (N at least 2) in which the
connection count stays positive strictly between the first operation and the
last, exactly one userConnected event is emitted (at the 0-to-1 transition)
and exactly one userDisconnected event (at the 1-to-0 transition); no event is
emitted at intermediate transitions.  The in-memory Socket variant instead
emits on every connect and every disconnect. -/
theorem C1_presence_edge_dedup (u : MUser) (s : SocketChatState)
    (ops : List PresenceOp) (n : Nat)
    (hstart : matchedCount u.id s.users = 0)
    (hC : countConnects ops = n) (hD : countDisconnects ops = n) (hn : 2 ≤ n)
    (hsession : ∀ i, 0 < i → i < ops.length →
      countDisconnects (List.take i ops) < countConnects (List.take i ops)) :
    (runPresenceOps u ops s).connectedEvents = s.connectedEvents + 1 ∧
    (runPresenceOps u ops s).disconnectedEvents = s.disconnectedEvents + 1 := by
  cases ops with
  | nil =>
    rw [countConnects_nil] at hC
    omega
  | cons op rest =>
    cases op with
    | disconnect =>
      cases rest with
      | nil =>
        rw [countDisconnects_cons_disconnect, countDisconnects_nil] at hD
        omega
      | cons r rs =>
        have h := hsession 1 (by omega) (by simp only [List.length_cons]; omega)
        rw [List.take_succ_cons, List.take_zero, countConnects_cons_disconnect,
          countDisconnects_cons_disconnect, countConnects_nil, countDisconnects_nil] at h
        omega
    | connect =>
      have hsim := runPresenceOps_sim u (PresenceOp.connect :: rest) s
      have hview : presenceView u.id s =
          { count := 0, connectedEvents := s.connectedEvents,
            disconnectedEvents := s.disconnectedEvents } := by
        simp [presenceView, hstart]
      rw [hview] at hsim
      have hrun : runPresenceView (PresenceOp.connect :: rest)
          { count := 0, connectedEvents := s.connectedEvents,
            disconnectedEvents := s.disconnectedEvents } =
          runPresenceView rest
            { count := 1, connectedEvents := s.connectedEvents + 1,
              disconnectedEvents := s.disconnectedEvents } := by
        show runPresenceView rest (presenceViewStep _ PresenceOp.connect) = _
        simp [presenceViewStep]
      have hfinal : runPresenceView rest
          { count := 1, connectedEvents := s.connectedEvents + 1,
            disconnectedEvents := s.disconnectedEvents } =
          { count := 0, connectedEvents := s.connectedEvents + 1,
            disconnectedEvents := s.disconnectedEvents + 1 } := by
        apply runPresenceView_session rest 1 _ _ (by omega)
        · intro i h1 hi
          have := hsession (i + 1) (by omega) (by simp only [List.length_cons]; omega)
          rw [List.take_succ_cons, countConnects_cons_connect,
            countDisconnects_cons_connect] at this
          omega
        · rw [countConnects_cons_connect] at hC
          rw [countDisconnects_cons_connect] at hD
          omega
      rw [hrun, hfinal] at hsim
      exact ⟨congrArg PresenceView.connectedEvents hsim,
        congrArg PresenceView.disconnectedEvents hsim⟩

/-- Witness for C1's amended theorem at a concrete input: user 1 opens two
connections and closes both; exactly one userConnected and one
userDisconnected are emitted by the mongoose handlers. -/
theorem C1_presence_edge_dedup_witness :
    (runPresenceOps { id := 1, name := "alice", tag := 1 }
      [.connect, .connect, .disconnect, .disconnect]
      { users := [], connectedEvents := 0, disconnectedEvents := 0 }).connectedEvents = 0 + 1 ∧
    (runPresenceOps { id := 1, name := "alice", tag := 1 }
      [.connect, .connect, .disconnect, .disconnect]
      { users := [], connectedEvents := 0, disconnectedEvents := 0 }).disconnectedEvents = 0 + 1 :=
  C1_presence_edge_dedup { id := 1, name := "alice", tag := 1 }
    { users := [], connectedEvents := 0, disconnectedEvents := 0 }
    [.connect, .connect, .disconnect, .disconnect] 2
    (by decide) (by decide) (by decide) (by decide)
    (by
      intro i h1 h2
      have h4 : i < 4 := by simpa using h2
      interval_cases i <;> decide)

theorem connectTimes_matchedCount (u : MUser) : ∀ (n : Nat) (s : SocketChatState),
    matchedCount u.id (connectTimes n u s).users = matchedCount u.id s.users + n
  | 0, s => rfl
  | n + 1, s => by
    show matchedCount u.id (connectTimes n u (socketOnConnect u s)).users = _
    rw [connectTimes_matchedCount u n (socketOnConnect u s)]
    have husers : (socketOnConnect u s).users = s.users ++ [u] := by
      rw [socketOnConnect_cases]
      split <;> rfl
    rw [husers, matchedCount_append_self]
    omega

/-- Claim C9: in the mongoose variant, every connection appends one entry for
the user to the chat's durable users array, so after N simultaneous
connections by a user who was absent the array holds N entries for that user
and the mongoose listChatUsers answer contains that user's id N times. -/
theorem C9_duplicate_entries_per_connection (u : MUser) (n : Nat)
    (s : SocketChatState) (hstart : matchedCount u.id s.users = 0) :
    (∀ s2 : SocketChatState, (socketOnConnect u s2).users = s2.users ++ [u]) ∧
    matchedCount u.id (connectTimes n u s).users = n ∧
    (getChatUsersMongoose (connectTimes n u s).users).countP
      (fun c => c.id == u.id) = n := by
  have happend : ∀ s2 : SocketChatState, (socketOnConnect u s2).users = s2.users ++ [u] := by
    intro s2
    rw [socketOnConnect_cases]
    split <;> rfl
  have hcount : matchedCount u.id (connectTimes n u s).users = n := by
    rw [connectTimes_matchedCount, hstart]
    omega
  refine ⟨happend, hcount, ?_⟩
  have h1 : (getChatUsersMongoose (connectTimes n u s).users).countP
      (fun c => c.id == u.id) =
      (storeSortUsers (connectTimes n u s).users).countP (fun x => x.id == u.id) := by
    unfold getChatUsersMongoose
    rw [List.countP_map]
    rfl
  have h2 : (storeSortUsers (connectTimes n u s).users).countP (fun x => x.id == u.id) =
      ((connectTimes n u s).users).countP (fun x => x.id == u.id) :=
    (List.perm_insertionSort storeSortRel (connectTimes n u s).users).countP_eq _
  rw [h1, h2]
  exact hcount

/-- Witness for C9 at a concrete input: three connections by user 1 leave
three entries in the chat's users array, and the mongoose listChatUsers
answer contains user 1 three times. -/
theorem C9_duplicate_entries_witness :
    matchedCount 1 (connectTimes 3 { id := 1, name := "alice", tag := 1 }
      { users := [], connectedEvents := 0, disconnectedEvents := 0 }).users = 3 ∧
    (getChatUsersMongoose (connectTimes 3 { id := 1, name := "alice", tag := 1 }
      { users := [], connectedEvents := 0, disconnectedEvents := 0 }).users).countP
      (fun c => c.id == 1) = 3 :=
  ⟨(C9_duplicate_entries_per_connection { id := 1, name := "alice", tag := 1 } 3
      { users := [], connectedEvents := 0, disconnectedEvents := 0 } (by decide)).2.1,
   (C9_duplicate_entries_per_connection { id := 1, name := "alice", tag := 1 } 3
      { users := [], connectedEvents := 0, disconnectedEvents := 0 } (by decide)).2.2⟩

/-! ## In-memory user list sorting (claim C3) -/

theorem jsSortByName_sorted (l : List MUser) :
    (jsSortByName l).Pairwise sortByNameRel := by
  letI : IsTotal MUser sortByNameRel := ⟨sortByNameRel_total⟩
  letI : IsTrans MUser sortByNameRel := ⟨sortByNameRel_trans⟩
  exact List.sorted_insertionSort sortByNameRel l

theorem memSocketStep_sorted (s : MemChatState) (e : MemSocketEvent)
    (hs : s.users.Pairwise sortByNameRel) :
    (memSocketStep s e).users.Pairwise sortByNameRel := by
  cases e with
  | connect u =>
    show (memConnectSocket u s).users.Pairwise sortByNameRel
    unfold memConnectSocket
    by_cases hany : (s.users.any fun x => x.id == u.id) = true
    · simpa [hany] using hs
    · simpa [hany] using jsSortByName_sorted (s.users ++ [u])
  | disconnect uid =>
    exact hs.sublist (List.eraseP_sublist _)

theorem runMemSocket_sorted (events : List MemSocketEvent) (s : MemChatState)
    (hs : s.users.Pairwise sortByNameRel) :
    (runMemSocket events s).users.Pairwise sortByNameRel := by
  induction events generalizing s with
  | nil => exact hs
  | cons e rest ih => exact ih (memSocketStep s e) (memSocketStep_sorted s e hs)

/-- Claim C3 counterexample: users "Alice" (tag 2) then "alice" (tag 1)
connect to an in-memory chat; getChatUsers answers them in arrival order,
because sortByName compares only lowercased names (a stable sort keeps ties
in existing order, and the tag is never consulted), so the answer is not
sorted by (case-insensitive displayName, tag): the tag 2 entry precedes the
tag 1 entry. -/
theorem C3_counterexample :
    getChatUsersApi [{ id := 1, users := (runMemSocket
        [.connect { id := 10, name := "Alice", tag := 2 },
         .connect { id := 11, name := "alice", tag := 1 }] memChatStart).users }] 1 =
      .ok [{ id := 10, name := "Alice", tag := 2 },
           { id := 11, name := "alice", tag := 1 }] ∧
    ¬ specSortedByNameTag
        [{ id := 10, name := "Alice", tag := 2 },
         { id := 11, name := "alice", tag := 1 }] :=
  ⟨by decide, by decide⟩

/-- Claim C3 (amended): in the in-memory variant, for every chat-users state
reachable by socket connect/disconnect events, the chat's users array is
sorted ascending by displayName compared case-insensitively (ties keep their
existing order — the tag is not a tiebreaker), getChatUsers answers exactly
that array, plucked, for an existing chat, and NotFound (404) for a
non-existent chat id. -/
theorem C3_listChatUsers_sorted_ci (events : List MemSocketEvent) (cid : Nat)
    (chats : List MemChat) :
    (chats.find? (fun c => c.id == cid) = none →
      getChatUsersApi chats cid = .notFound) ∧
    getChatUsersApi [{ id := cid, users := (runMemSocket events memChatStart).users }] cid =
      .ok ((runMemSocket events memChatStart).users.map pluckUser) ∧
    (runMemSocket events memChatStart).users.Pairwise sortByNameRel := by
  refine ⟨?_, ?_, ?_⟩
  · intro h
    simp [getChatUsersApi, h]
  · simp [getChatUsersApi]
  · exact runMemSocket_sorted events memChatStart (by simp [memChatStart])

/-- Witness for C3's amended theorem at a concrete input: a chat list without
chat 5 answers NotFound, and after "Bob" then "alice" connect, the existing
chat answers the case-insensitively sorted plucked list. -/
theorem C3_listChatUsers_sorted_ci_witness :
    getChatUsersApi [] 5 = .notFound ∧
    getChatUsersApi [{ id := 5, users := (runMemSocket
        [.connect { id := 2, name := "Bob", tag := 1 },
         .connect { id := 3, name := "alice", tag := 1 }] memChatStart).users }] 5 =
      .ok ((runMemSocket
        [.connect { id := 2, name := "Bob", tag := 1 },
         .connect { id := 3, name := "alice", tag := 1 }] memChatStart).users.map pluckUser) ∧
    (runMemSocket
        [.connect { id := 2, name := "Bob", tag := 1 },
         .connect { id := 3, name := "alice", tag := 1 }] memChatStart).users.Pairwise
      sortByNameRel := by
  have h := C3_listChatUsers_sorted_ci
    [.connect { id := 2, name := "Bob", tag := 1 },
     .connect { id := 3, name := "alice", tag := 1 }] 5 []
  exact ⟨h.1 (by decide), h.2.1, h.2.2⟩

/-! ## Tag assignment (claim C2) -/

theorem nextUserTag_of_range (store : List StoredUser)
    (h : store.map (fun u => u.tag) = List.range' 1 store.length) :
    nextUserTag store = store.length + 1 := by
  unfold nextUserTag getLatestUser
  cases hl : store.getLast? with
  | none =>
    have hnil : store = [] := List.getLast?_eq_none_iff.mp hl
    subst hnil
    rfl
  | some u =>
    have hmap : (store.map fun u => u.tag).getLast? = some u.tag := by
      rw [List.getLast?_map, hl]
      rfl
    rw [h] at hmap
    have hne : store ≠ [] := by
      intro hnil
      rw [hnil] at hl
      simp at hl
    obtain ⟨m, hm⟩ : ∃ m, store.length = m + 1 := by
      cases store with
      | nil => exact absurd rfl hne
      | cons a l => exact ⟨l.length, by simp⟩
    rw [hm, List.range'_concat, List.getLast?_concat] at hmap
    injection hmap with hmap
    show u.tag + 1 = store.length + 1
    omega

/-- Claim C2 counterexample: two concurrent registrations that both read the
latest user before either saves receive the same tag.  With requests "alice"
and "bob" against an empty store, the interleaving read, read, save, save
yields two users that both carry tag 1 — duplicate tags are assigned. -/
theorem C2_counterexample :
    ((runRegSchedule [0, 1, 0, 1]
      { store := []
        requests := [{ username := "alice", phase := .queued },
                     { username := "bob", phase := .queued }] }).store.map
      (fun u => u.tag)) = [1, 1] ∧
    ¬ ((runRegSchedule [0, 1, 0, 1]
      { store := []
        requests := [{ username := "alice", phase := .queued },
                     { username := "bob", phase := .queued }] }).store.map
      (fun u => u.tag)).Nodup :=
  ⟨by decide, by decide⟩

/-- Claim C2 (amended): registering users U1..Uk strictly in sequence (each
request's read of the latest user and its save complete before the next
request starts) yields exactly the tags 1..k, strictly increasing with
next = previous max + 1 starting at 1. -/
theorem C2_sequential_tags (usernames : List String) :
    (registerUsersInSequence usernames).map (fun u => u.tag) =
      List.range' 1 usernames.length := by
  suffices h : ∀ (names : List String) (store : List StoredUser),
      store.map (fun u => u.tag) = List.range' 1 store.length →
      (names.foldl registerUserSeq store).map (fun u => u.tag) =
        List.range' 1 (store.length + names.length) by
    simpa using h usernames [] rfl
  intro names
  induction names with
  | nil =>
    intro store h
    simpa using h
  | cons nm rest ih =>
    intro store h
    show ((rest.foldl registerUserSeq (registerUserSeq store nm)).map fun u => u.tag) = _
    have hnext : nextUserTag store = store.length + 1 := nextUserTag_of_range store h
    have hlen : (registerUserSeq store nm).length = store.length + 1 := by
      unfold registerUserSeq saveUser
      simp
    have hstore : (registerUserSeq store nm).map (fun u => u.tag) =
        List.range' 1 (registerUserSeq store nm).length := by
      unfold registerUserSeq saveUser
      rw [List.map_append, h, hnext]
      simp [List.range'_concat]
      omega
    rw [ih (registerUserSeq store nm) hstore, hlen]
    congr 1
    simp only [List.length_cons]
    omega

/-! ## createChat (claim C4) -/

/-- Claim C4: createChat with the name of an existing chat never creates a
second chat and never publishes anything; when the userId is present and the
chatName nonempty it answers Conflict; a missing chatName answers
ValidationError with no state change; and a successful call appends exactly
the new chat and publishes one global chatCreated event carrying it. -/
theorem C4_createChat_conflict (chats : List SChat) (userIds : List Nat)
    (userId : Option Nat) (chatName : String) (newChatId : Nat) :
    ((∃ c ∈ chats, c.name = chatName) →
      (createChat chats userIds userId chatName newChatId).2.1 = chats ∧
      (createChat chats userIds userId chatName newChatId).2.2 = [] ∧
      (∀ uid, userId = some uid → chatName ≠ "" →
        (createChat chats userIds userId chatName newChatId).1 = .conflict)) ∧
    (chatName = "" →
      (createChat chats userIds userId chatName newChatId).1 = .validationError ∧
      (createChat chats userIds userId chatName newChatId).2.1 = chats ∧
      (createChat chats userIds userId chatName newChatId).2.2 = []) ∧
    (∀ chat, (createChat chats userIds userId chatName newChatId).1 = .created chat →
      (createChat chats userIds userId chatName newChatId).2.1 = chats ++ [chat] ∧
      (createChat chats userIds userId chatName newChatId).2.2 = [.chatCreated chat] ∧
      chat.name = chatName) := by
  cases userId with
  | none =>
    refine ⟨fun _ => ⟨rfl, rfl, fun uid h _ => by simp at h⟩,
      fun _ => ⟨rfl, rfl, rfl⟩, fun chat h => ?_⟩
    simp [createChat] at h
  | some uid =>
    by_cases hcn : chatName = ""
    · subst hcn
      refine ⟨fun _ => ?_, fun _ => ?_, fun chat h => ?_⟩
      · exact ⟨by simp [createChat], by simp [createChat],
          fun uid2 _ hne => absurd rfl hne⟩
      · exact ⟨by simp [createChat], by simp [createChat], by simp [createChat]⟩
      · simp [createChat] at h
    · refine ⟨fun hex => ?_, fun h => absurd h hcn, fun chat h => ?_⟩
      · obtain ⟨c, hc, hname⟩ := hex
        obtain ⟨c', hc'⟩ : ∃ c', chats.find? (fun x => x.name == chatName) = some c' := by
          rw [← Option.isSome_iff_exists]
          exact List.find?_isSome.mpr ⟨c, hc, by simp [hname]⟩
        refine ⟨by simp [createChat, hcn, hc'], by simp [createChat, hcn, hc'],
          fun uid2 _ _ => by simp [createChat, hcn, hc']⟩
      · revert h
        simp only [createChat, if_neg hcn]
        cases hfind : chats.find? (fun x => x.name == chatName) with
        | some c' =>
          intro h
          simp at h
        | none =>
          by_cases hmem : userIds.contains uid
          · simp only [hmem, if_true]
            intro h
            injection h with h
            subst h
            exact ⟨rfl, rfl, rfl⟩
          · simp only [hmem, Bool.false_eq_true, if_false]
            intro h
            simp at h

/-- Witness for C4 at a concrete input: creating a chat named general-chat
when one already exists answers Conflict, creates nothing and publishes
nothing. -/
theorem C4_createChat_conflict_witness :
    (createChat [{ id := 1, name := "general-chat" }] [5] (some 5) "general-chat" 9).2.1 =
      [{ id := 1, name := "general-chat" }] ∧
    (createChat [{ id := 1, name := "general-chat" }] [5] (some 5) "general-chat" 9).2.2 = [] ∧
    (createChat [{ id := 1, name := "general-chat" }] [5] (some 5) "general-chat" 9).1 =
      .conflict := by
  have h := (C4_createChat_conflict [{ id := 1, name := "general-chat" }] [5] (some 5)
    "general-chat" 9).1 (by decide)
  exact ⟨h.1, h.2.1, h.2.2 5 rfl (by decide)⟩

/-! ## Retention sweep lemmas (claim C8) -/

theorem sweepStep_msgs (cutoff : Nat) (st : SweepState) (c : SweepChat) :
    (sweepStep cutoff st c).msgs =
      st.msgs.filter (fun m => !sweepMsgMatches c.id cutoff m) := by
  simp only [sweepStep]
  split
  · rfl
  · split
    · rfl
    · split <;> rfl

theorem sweepStep_keptChats_cases (cutoff : Nat) (st : SweepState) (c : SweepChat) :
    (sweepStep cutoff st c).keptChats = st.keptChats ++ [c] ∨
      (sweepStep cutoff st c).keptChats = st.keptChats := by
  simp only [sweepStep]
  split
  · exact Or.inl rfl
  · split
    · exact Or.inl rfl
    · split
      · exact Or.inl rfl
      · exact Or.inr rfl

theorem countP_filter_of_keep {α : Type} (p q : α → Bool) :
    ∀ l : List α, (∀ a ∈ l, q a = true → p a = true) →
      (l.filter p).countP q = l.countP q
  | [], _ => rfl
  | x :: l, h => by
    have hrest : (l.filter p).countP q = l.countP q :=
      countP_filter_of_keep p q l (fun a ha => h a (List.mem_cons_of_mem _ ha))
    by_cases hp : p x = true
    · rw [List.filter_cons_of_pos hp, List.countP_cons, List.countP_cons, hrest]
    · have hq : q x = false := by
        cases hqv : q x with
        | false => rfl
        | true => exact absurd (h x (List.mem_cons_self _ _) hqv) hp
      rw [List.filter_cons_of_neg hp, List.countP_cons, hrest, hq]
      simp

theorem countP_congr_mem {α : Type} (p q : α → Bool) :
    ∀ l : List α, (∀ a ∈ l, p a = q a) → l.countP p = l.countP q
  | [], _ => rfl
  | x :: l, h => by
    rw [List.countP_cons, List.countP_cons,
      countP_congr_mem p q l (fun a ha => h a (List.mem_cons_of_mem _ ha)),
      h x (List.mem_cons_self _ _)]

theorem sweepStep_of_clean (cutoff : Nat) (st : SweepState) (c : SweepChat)
    (hclean : ∀ m ∈ st.msgs, sweepMsgMatches c.id cutoff m = false)
    (hgood : c.name = "general-chat" ∨ cutoff < c.createdAt ∨
      0 < st.msgs.countP (fun m => m.chat == c.id && !(m.createdAt ≤ cutoff))) :
    sweepStep cutoff st c = { st with keptChats := st.keptChats ++ [c] } := by
  have hfilter : st.msgs.filter (fun m => !sweepMsgMatches c.id cutoff m) = st.msgs := by
    apply List.filter_eq_self.mpr
    intro m hm
    simp [hclean m hm]
  simp only [sweepStep, hfilter]
  rcases hgood with hg | hg | hg
  · simp [hg, Nat.sub_self]
  · by_cases hgen : c.name = "general-chat"
    · simp [hgen, Nat.sub_self]
    · by_cases hcount : 0 < st.msgs.countP (fun m => m.chat == c.id)
      · simp [hgen, hcount, Nat.sub_self]
      · simp [hgen, hcount, hg, Nat.sub_self]
  · have hcount : 0 < st.msgs.countP (fun m => m.chat == c.id) := by
      refine Nat.lt_of_lt_of_le hg (List.countP_mono_left ?_)
      intro m _ hm
      simp only [Bool.and_eq_true] at hm
      exact hm.1
    by_cases hgen : c.name = "general-chat"
    · simp [hgen, Nat.sub_self]
    · simp [hgen, hcount, Nat.sub_self]

theorem sweep_of_clean (cutoff : Nat) : ∀ (cs : List SweepChat) (st : SweepState),
    (∀ c ∈ cs, ∀ m ∈ st.msgs, sweepMsgMatches c.id cutoff m = false) →
    (∀ c ∈ cs, c.name = "general-chat" ∨ cutoff < c.createdAt ∨
      0 < st.msgs.countP (fun m => m.chat == c.id && !(m.createdAt ≤ cutoff))) →
    List.foldl (sweepStep cutoff) st cs = { st with keptChats := st.keptChats ++ cs }
  | [], st, _, _ => by simp
  | c :: rest, st, hclean, hgood => by
    rw [List.foldl_cons,
      sweepStep_of_clean cutoff st c (hclean c (List.mem_cons_self _ _))
        (hgood c (List.mem_cons_self _ _)),
      sweep_of_clean cutoff rest { st with keptChats := st.keptChats ++ [c] }
        (fun c2 h2 m hm => hclean c2 (List.mem_cons_of_mem _ h2) m hm)
        (fun c2 h2 => hgood c2 (List.mem_cons_of_mem _ h2))]
    simp

theorem sweep_clean_aux (cutoff : Nat) : ∀ (cs : List SweepChat) (st : SweepState) (cid : Nat),
    ((∃ c ∈ cs, c.id = cid) ∨ ∀ m ∈ st.msgs, sweepMsgMatches cid cutoff m = false) →
    ∀ m ∈ (List.foldl (sweepStep cutoff) st cs).msgs, sweepMsgMatches cid cutoff m = false
  | [], _, _, h => by
    rcases h with ⟨c, hc, _⟩ | h
    · simp at hc
    · exact h
  | c :: rest, st, cid, h => by
    rw [List.foldl_cons]
    apply sweep_clean_aux cutoff rest (sweepStep cutoff st c) cid
    rcases h with ⟨c0, hc0, hid⟩ | h
    · rcases List.mem_cons.mp hc0 with rfl | hc0
      · right
        intro m hm
        rw [sweepStep_msgs] at hm
        have hf := (List.mem_filter.mp hm).2
        rw [← hid]
        simpa using hf
      · exact Or.inl ⟨c0, hc0, hid⟩
    · right
      intro m hm
      rw [sweepStep_msgs] at hm
      exact h m (List.mem_filter.mp hm).1

theorem sweepStep_kept_delete (cutoff : Nat) (st : SweepState) (c : SweepChat)
    (hgen : ¬ c.name = "general-chat")
    (hcount : ¬ 0 < (st.msgs.filter fun m => !sweepMsgMatches c.id cutoff m).countP
      (fun m => m.chat == c.id))
    (hcreated : ¬ cutoff < c.createdAt) :
    (sweepStep cutoff st c).keptChats = st.keptChats := by
  simp only [sweepStep]
  rw [if_neg (by simpa using hgen), if_neg hcount, if_neg hcreated]

theorem sweepStep_kept_general (cutoff : Nat) (st : SweepState) (c : SweepChat)
    (hgen : c.name = "general-chat") :
    (sweepStep cutoff st c).keptChats = st.keptChats ++ [c] := by
  simp only [sweepStep]
  rw [if_pos (by simpa using hgen)]

theorem sweepStep_good (cutoff : Nat) (st : SweepState) (c' : SweepChat)
    (h : ∀ c ∈ st.keptChats, c.name = "general-chat" ∨ cutoff < c.createdAt ∨
      0 < st.msgs.countP (fun m => m.chat == c.id && !(m.createdAt ≤ cutoff))) :
    ∀ c ∈ (sweepStep cutoff st c').keptChats,
      c.name = "general-chat" ∨ cutoff < c.createdAt ∨
        0 < (sweepStep cutoff st c').msgs.countP
          (fun m => m.chat == c.id && !(m.createdAt ≤ cutoff)) := by
  have hmsgs := sweepStep_msgs cutoff st c'
  have hpres : ∀ cid : Nat,
      (sweepStep cutoff st c').msgs.countP
        (fun m => m.chat == cid && !(m.createdAt ≤ cutoff)) =
      st.msgs.countP (fun m => m.chat == cid && !(m.createdAt ≤ cutoff)) := by
    intro cid
    rw [hmsgs]
    apply countP_filter_of_keep
    intro m _ hq
    simp only [Bool.and_eq_true] at hq
    have hnew : (decide (m.createdAt ≤ cutoff)) = false := by
      simpa using hq.2
    simp [sweepMsgMatches, hnew]
  have hold : ∀ c ∈ st.keptChats,
      c.name = "general-chat" ∨ cutoff < c.createdAt ∨
        0 < (sweepStep cutoff st c').msgs.countP
          (fun m => m.chat == c.id && !(m.createdAt ≤ cutoff)) := by
    intro c hc
    rcases h c hc with hg | hg | hg
    · exact Or.inl hg
    · exact Or.inr (Or.inl hg)
    · exact Or.inr (Or.inr (by rw [hpres c.id]; exact hg))
  intro c hc
  rcases sweepStep_keptChats_cases cutoff st c' with hk | hk
  · rw [hk] at hc
    rcases List.mem_append.mp hc with hc | hc
    · exact hold c hc
    · have hcc : c = c' := by simpa using hc
      subst hcc
      by_cases hgen : c.name = "general-chat"
      · exact Or.inl hgen
      · by_cases hcreated : cutoff < c.createdAt
        · exact Or.inr (Or.inl hcreated)
        · refine Or.inr (Or.inr ?_)
          have hcount : 0 < ((st.msgs.filter fun m => !sweepMsgMatches c.id cutoff m).countP
              (fun m => m.chat == c.id)) := by
            by_contra hno
            have hdel := sweepStep_kept_delete cutoff st c hgen hno hcreated
            rw [hdel] at hk
            have hlen := congrArg List.length hk
            simp at hlen
          have hcongr : ((st.msgs.filter fun m => !sweepMsgMatches c.id cutoff m).countP
              (fun m => m.chat == c.id)) =
              ((st.msgs.filter fun m => !sweepMsgMatches c.id cutoff m).countP
              (fun m => m.chat == c.id && !(m.createdAt ≤ cutoff))) := by
            apply countP_congr_mem
            intro m hm
            have hmf := (List.mem_filter.mp hm).2
            by_cases hch : (m.chat == c.id) = true
            · have hnotold : ¬ (m.createdAt ≤ cutoff) := by
                simpa [sweepMsgMatches, hch] using hmf
              simp [hch, hnotold]
            · have hchf : (m.chat == c.id) = false := by
                simpa using hch
              simp [hchf]
          rw [hmsgs, ← hcongr]
          exact hcount
  · rw [hk] at hc
    exact hold c hc

theorem sweep_good_aux (cutoff : Nat) : ∀ (cs : List SweepChat) (st : SweepState),
    (∀ c ∈ st.keptChats, c.name = "general-chat" ∨ cutoff < c.createdAt ∨
      0 < st.msgs.countP (fun m => m.chat == c.id && !(m.createdAt ≤ cutoff))) →
    ∀ c ∈ (List.foldl (sweepStep cutoff) st cs).keptChats,
      c.name = "general-chat" ∨ cutoff < c.createdAt ∨
        0 < (List.foldl (sweepStep cutoff) st cs).msgs.countP
          (fun m => m.chat == c.id && !(m.createdAt ≤ cutoff))
  | [], _, h => h
  | c' :: rest, st, h => by
    rw [List.foldl_cons]
    exact sweep_good_aux cutoff rest (sweepStep cutoff st c') (sweepStep_good cutoff st c' h)

theorem sweep_kept_origin (cutoff : Nat) : ∀ (cs : List SweepChat) (st : SweepState)
    (c : SweepChat), c ∈ (List.foldl (sweepStep cutoff) st cs).keptChats →
    c ∈ st.keptChats ∨ c ∈ cs
  | [], _, _, h => Or.inl h
  | c' :: rest, st, c, h => by
    rw [List.foldl_cons] at h
    rcases sweep_kept_origin cutoff rest (sweepStep cutoff st c') c h with h1 | h1
    · rcases sweepStep_keptChats_cases cutoff st c' with hk | hk
      · rw [hk] at h1
        rcases List.mem_append.mp h1 with h2 | h2
        · exact Or.inl h2
        · exact Or.inr (List.mem_cons.mpr (Or.inl (by simpa using h2)))
      · rw [hk] at h1
        exact Or.inl h1
    · exact Or.inr (List.mem_cons_of_mem _ h1)

theorem sweep_kept_mono (cutoff : Nat) : ∀ (cs : List SweepChat) (st : SweepState),
    st.keptChats ⊆ (List.foldl (sweepStep cutoff) st cs).keptChats
  | [], _ => fun _ h => h
  | c' :: rest, st => by
    intro x hx
    rw [List.foldl_cons]
    apply sweep_kept_mono cutoff rest (sweepStep cutoff st c')
    rcases sweepStep_keptChats_cases cutoff st c' with hk | hk
    · rw [hk]
      exact List.mem_append.mpr (Or.inl hx)
    · rw [hk]
      exact hx

theorem sweep_keeps_general (cutoff : Nat) : ∀ (cs : List SweepChat) (st : SweepState)
    (c : SweepChat), c ∈ cs → c.name = "general-chat" →
    c ∈ (List.foldl (sweepStep cutoff) st cs).keptChats
  | [], _, _, h, _ => by simp at h
  | c' :: rest, st, c, h, hgen => by
    rw [List.foldl_cons]
    rcases List.mem_cons.mp h with rfl | h
    · apply sweep_kept_mono cutoff rest
      rw [sweepStep_kept_general cutoff st c hgen]
      exact List.mem_append.mpr (Or.inr (by simp))
    · exact sweep_keeps_general cutoff rest _ c h hgen

/-- Claim C8: running the retention sweep twice in immediate succession with
the same cutoff and no new messages in between deletes zero additional
messages and zero additional chats on the second run — the second run leaves
the message store and the surviving chat list exactly as the first run left
them — and the sweep never deletes a chat named general-chat. -/
theorem C8_sweep_idempotent (cutoff : Nat) (chats : List SweepChat)
    (msgs : List SweepMsg) :
    (sweep cutoff (sweep cutoff chats msgs).keptChats
      (sweep cutoff chats msgs).msgs).deletedMsgs = 0 ∧
    (sweep cutoff (sweep cutoff chats msgs).keptChats
      (sweep cutoff chats msgs).msgs).deletedChats = 0 ∧
    (sweep cutoff (sweep cutoff chats msgs).keptChats
      (sweep cutoff chats msgs).msgs).msgs = (sweep cutoff chats msgs).msgs ∧
    (sweep cutoff (sweep cutoff chats msgs).keptChats
      (sweep cutoff chats msgs).msgs).keptChats = (sweep cutoff chats msgs).keptChats ∧
    (∀ c ∈ chats, c.name = "general-chat" → c ∈ (sweep cutoff chats msgs).keptChats) := by
  have hclean : ∀ c ∈ (sweep cutoff chats msgs).keptChats,
      ∀ m ∈ (sweep cutoff chats msgs).msgs, sweepMsgMatches c.id cutoff m = false := by
    intro c hc
    have horig : c ∈ chats := by
      rcases sweep_kept_origin cutoff chats
          { msgs := msgs, keptChats := [], deletedMsgs := 0, deletedChats := 0 } c hc with
        h | h
      · simp at h
      · exact h
    exact sweep_clean_aux cutoff chats
      { msgs := msgs, keptChats := [], deletedMsgs := 0, deletedChats := 0 } c.id
      (Or.inl ⟨c, horig, rfl⟩)
  have hgood : ∀ c ∈ (sweep cutoff chats msgs).keptChats,
      c.name = "general-chat" ∨ cutoff < c.createdAt ∨
        0 < (sweep cutoff chats msgs).msgs.countP
          (fun m => m.chat == c.id && !(m.createdAt ≤ cutoff)) := by
    apply sweep_good_aux cutoff chats
      { msgs := msgs, keptChats := [], deletedMsgs := 0, deletedChats := 0 }
    intro c hc
    simp at hc
  have hrun2 : sweep cutoff (sweep cutoff chats msgs).keptChats (sweep cutoff chats msgs).msgs =
      { msgs := (sweep cutoff chats msgs).msgs
        keptChats := [] ++ (sweep cutoff chats msgs).keptChats
        deletedMsgs := 0
        deletedChats := 0 } :=
    sweep_of_clean cutoff (sweep cutoff chats msgs).keptChats
      { msgs := (sweep cutoff chats msgs).msgs, keptChats := [], deletedMsgs := 0,
        deletedChats := 0 }
      (fun c hc m hm => hclean c hc m hm) (fun c hc => hgood c hc)
  refine ⟨?_, ?_, ?_, ?_, ?_⟩
  · rw [hrun2]
  · rw [hrun2]
  · rw [hrun2]
  · rw [hrun2]
    simp
  · intro c hc hgen
    exact sweep_keeps_general cutoff chats
      { msgs := msgs, keptChats := [], deletedMsgs := 0, deletedChats := 0 } c hc hgen
